import Mathlib

set_option maxHeartbeats 1000000

/-!
Shallow embedding of the core pipeline of bg3-sounds-converter:
the ID-map builder and rename engine (`rename_files` in app.py /
create_wiki.py), the grouping engine (`create_banks_folders`), and the
descriptor parser (`parse_bnk_xml` in app2.py).

Python string primitives (`split`, `strip`, `upper`, substring test,
`endswith`) are modelled by executable functions on `List Char` wrapped
into `String`, because they all operate on single-character separators or
character classes in the source.  Lean's builtin `String.splitOn`,
`String.trim`, `String.toUpper` compute the same values but do not reduce
in the kernel, so hand-rolled equivalents are used throughout.
-/

/-! ## Character-list string primitives -/

/-- Split a character list on a separator character, keeping empty pieces,
like Python `str.split(c)`. -/
def splitOnChar (c : Char) : List Char → List (List Char)
  | [] => [[]]
  | a :: rest =>
      match splitOnChar c rest with
      | [] => [[]]
      | g :: gs => if a = c then [] :: g :: gs else (a :: g) :: gs

/-- Python `s.split(c)` producing strings. -/
def pySplit (c : Char) (s : String) : List String :=
  (splitOnChar c s.data).map String.mk

/-- Strip leading and trailing whitespace, like Python `str.strip()`
(restricted to ASCII whitespace). -/
def chStrip (l : List Char) : List Char :=
  ((l.dropWhile Char.isWhitespace).reverse.dropWhile Char.isWhitespace).reverse

/-- Python `str.strip()`. -/
def pyStrip (s : String) : String := String.mk (chStrip s.data)

/-- Python `str.upper()` (ASCII). -/
def pyUpper (s : String) : String := String.mk (s.data.map Char.toUpper)

/-- Does the list start with the given pattern? -/
def chStarts : List Char → List Char → Bool
  | [], _ => true
  | _ :: _, [] => false
  | a :: p, b :: s => if a = b then chStarts p s else false

/-- Contiguous-substring test: Python `pat in s`. -/
def chHasSub (pat : List Char) : List Char → Bool
  | [] => chStarts pat []
  | s@(_ :: rest) => chStarts pat s || chHasSub pat rest

/-- Python `pat in s` on strings. -/
def pyContains (pat s : String) : Bool := chHasSub pat.data s.data

/-- Python `s.endswith(suff)`, via reversed lists. -/
def pyEndsWith (s suff : String) : Bool := chStarts suff.data.reverse s.data.reverse

/-- Python `str.isdigit()` restricted to ASCII: nonempty and all chars decimal digits. -/
def isDigitStr (s : String) : Bool := !s.isEmpty && s.data.all (fun c => c.isDigit)

/-! ## ID-Map Builder (`id_dict` construction in `rename_files`, app.py 233-248) -/

/-- `lines = [line.strip() for line in content.splitlines() if line.strip()]` -/
def trimmedLines (content : String) : List String :=
  ((pySplit '\n' content).map pyStrip).filter (fun l => !(l == ""))

/-- The `start_index` scan: first index of a purely-digit line, defaulting to 0. -/
def startIndex (lines : List String) : Nat :=
  match lines.findIdx? isDigitStr with
  | some i => i
  | none => 0

/-- `[x.strip() for x in ids_line.split(",") if x.strip()]` -/
def idTokens (ids_line : String) : List String :=
  ((pySplit ',' ids_line).map pyStrip).filter (fun t => !(t == ""))

/-- Python dict assignment `d[k] = v`: update in place if the key exists
(insertion order kept), else append at the end. -/
def dictInsert {α : Type} (m : List (String × α)) (k : String) (v : α) :
    List (String × α) :=
  if k ∈ m.map Prod.fst then m.map (fun p => if p.1 = k then (k, v) else p)
  else m ++ [(k, v)]

/-- Python `k in d` / `d[k]` lookup. -/
def dictFind {α : Type} (m : List (String × α)) (k : String) : Option α :=
  (m.find? (fun p => p.1 == k)).map Prod.snd

/-- `for idx, id_val in enumerate(ids): id_dict[id_val] = f"{base_name}_{idx}"`,
with the running index made explicit. -/
def addIdsFrom (base : String) : List (String × String) → Nat → List String →
    List (String × String)
  | m, _, [] => m
  | m, idx, idv :: rest =>
      addIdsFrom base (dictInsert m idv (base ++ "_" ++ Nat.repr idx)) (idx + 1) rest

def addIds (m : List (String × String)) (base : String) (ids : List String) :
    List (String × String) :=
  addIdsFrom base m 0 ids

/-- The loop `for i in range(start_index, len(lines), 3): if i + 2 < len(lines): ...`
expressed on the suffix of `lines` from the current index: a step is taken
exactly when at least three lines remain. -/
def buildIdMapFrom : List (String × String) → List String → List (String × String)
  | m, _idxLine :: base :: ids_line :: rest =>
      buildIdMapFrom (addIds m base (idTokens ids_line)) rest
  | m, _ => m

/-- The `id_dict` construction of `rename_files` (app.py lines 233-248). -/
def buildIdMap (content : String) : List (String × String) :=
  let lines := trimmedLines content
  buildIdMapFrom [] (lines.drop (startIndex lines))

/-! ## Grouping Engine (`create_banks_folders`, app.py 178-199)

The filesystem is modelled as the loose-file pool of the sounds directory
(its regular files) together with the per-bank subdirectories and their
contents.  One `Bank` is one `.bnk.xml` descriptor file: its bank name
(the basename of the directory holding it) and the text lines of the file.
-/

/-- The sounds directory: the loose transcoded files, and the per-bank
subdirectories with their contents. -/
structure DirState where
  loose : List String
  folders : List (String × List String)
deriving DecidableEq

/-- One decoded descriptor file: the bank name and its text lines. -/
structure Bank where
  name : String
  lines : List String
deriving DecidableEq

/-- The literal marker `name="sourceID"` scanned for on each line. -/
def sourceIDMarker : String := "name=\"sourceID\""

/-- Python membership test of the sourceID marker in a line. -/
def isMarkerLine (line : String) : Bool := pyContains sourceIDMarker line

/-- Python negative indexing `xs[-2]`: raises unless the list has at least
two elements. -/
def pyNegGet2 {α : Type} (xs : List α) : Option α :=
  if 2 ≤ xs.length then xs[xs.length - 2]? else none

/-- The extraction `line.split` on double quotes taking index -2, guarded by the marker test. -/
def lineId (line : String) : Option String :=
  if isMarkerLine line then pyNegGet2 (pySplit '\"' line) else none

/-- `filename = f"{ids}.wem.wav"` for marker lines. -/
def lineFilename (line : String) : Option String :=
  (lineId line).map (fun i => i ++ ".wem.wav")

/-- `os.makedirs(target_folder, exist_ok=True)`. -/
def ensureFolder (fs : List (String × List String)) (name : String) :
    List (String × List String) :=
  if name ∈ fs.map Prod.fst then fs else fs ++ [(name, [])]

/-- Place a file into the named bank subdirectory. -/
def addToFolder (fs : List (String × List String)) (name fn : String) :
    List (String × List String) :=
  fs.map (fun p => if p.1 = name then (p.1, p.2 ++ [fn]) else p)

/-- One descriptor line: on a marker line compute the expected loose
filename and, if it is present in the loose pool (`filename in
os.listdir(sounds_dir)`), `shutil.move` it into the bank subdirectory.
The second component records the moves performed. -/
def stepLine (bank : String) (acc : DirState × List (String × String))
    (line : String) : DirState × List (String × String) :=
  match lineFilename line with
  | none => acc
  | some fn =>
      if fn ∈ acc.1.loose then
        (⟨acc.1.loose.erase fn, addToFolder acc.1.folders bank fn⟩,
          acc.2 ++ [(bank, fn)])
      else acc

/-- Process one descriptor file: create the bank subdirectory, then scan
all lines. -/
def runBank (acc : DirState × List (String × String)) (b : Bank) :
    DirState × List (String × String) :=
  b.lines.foldl (stepLine b.name)
    (⟨acc.1.loose, ensureFolder acc.1.folders b.name⟩, acc.2)

/-- `create_banks_folders` (app.py 178-199): fold over all discovered
descriptor files, returning the final directory state and the list of
moves performed. -/
def create_banks_folders (banks : List Bank) (st : DirState) :
    DirState × List (String × String) :=
  banks.foldl runBank (st, [])

/-- The progress messages emitted by `create_banks_folders`: one
`Grouped files for bank <name>` notice per descriptor file, nothing else. -/
def groupLogs (banks : List Bank) : List String :=
  banks.map (fun b => "Grouped files for bank \x27" ++ b.name ++ "\x27")

/-! ## Grouping with fallible descriptor reads (C8)

In app.py the `open(xml_path, "r")` call has no surrounding handler: a
read failure raises and the remaining descriptor files are never
processed.  `xml = none` models an unreadable descriptor file; the
returned `Option String` is the escaped exception. -/

/-- A descriptor file whose text may be unreadable. -/
structure BankR where
  name : String
  xml : Option (List String)
deriving DecidableEq

/-- `create_banks_folders` with fallible reads: the subdirectory is created
(line 187) before the descriptor is opened (line 189); an unreadable file
raises, aborting the walk with the state reached so far. -/
def create_banks_folders_fallible :
    List BankR → DirState × List (String × String) →
    (DirState × List (String × String)) × Option String
  | [], acc => (acc, none)
  | b :: rest, acc =>
      let acc' : DirState × List (String × String) :=
        (⟨acc.1.loose, ensureFolder acc.1.folders b.name⟩, acc.2)
      match b.xml with
      | none => (acc', some ("OSError opening descriptor of bank " ++ b.name))
      | some ls => create_banks_folders_fallible rest (ls.foldl (stepLine b.name) acc')

/-! ## Rename Engine (`rename_files`, app.py 202-256) -/

/-- One bank subdirectory of a partition: its folder name and files. -/
structure RFolder where
  name : String
  files : List String
deriving DecidableEq

/-- `glob.glob(os.path.join(folder_path, "*.wem.wav"))` membership test:
ends with `.wem.wav` and is not a hidden file (glob skips leading dots). -/
def matches_wem_wav (f : String) : Bool :=
  pyEndsWith f ".wem.wav" && !(chStarts ['.'] f.data)

/-- `sound_id = os.path.basename(sound).split(".")[0]` -/
def soundStem (f : String) : String :=
  match pySplit '.' f with
  | [] => ""
  | s :: _ => s

/-- `for key in wiki_data: if folder_name.upper() in key.upper(): ...` —
first page whose key contains the folder name case-insensitively. -/
def find_mapping_key (wiki : List (String × String)) (folder_name : String) :
    Option (String × String) :=
  wiki.find? (fun kv => pyContains (pyUpper folder_name) (pyUpper kv.1))

/-- `os.rename(sound, new_name)`: the old name disappears; if the new name
already exists it is overwritten (one directory entry remains). -/
def renameFile (fs : List String) (old new : String) : List String :=
  let r := fs.erase old
  if new ∈ r then r else r ++ [new]

/-- One file of the glob snapshot: rename it when its stem is a key of
`id_dict`. -/
def renameStep (dict : List (String × String)) (fs : List String)
    (sound : String) : List String :=
  match dictFind dict (soundStem sound) with
  | none => fs
  | some disp => renameFile fs sound (disp ++ ".wav")

/-- The per-folder body of `rename_files`: glob a snapshot of the matching
files, then rename each one whose stem is mapped. -/
def renameInFolder (dict : List (String × String)) (files : List String) :
    List String :=
  (files.filter matches_wem_wav).foldl (renameStep dict) files

/-- The effect of `rename_files` on one bank subdirectory: with no matching
page the folder is untouched, otherwise its files are renamed through the
page's ID-map. -/
def renameFolderResult (wiki : List (String × String)) (fo : RFolder) : RFolder :=
  match find_mapping_key wiki fo.name with
  | none => fo
  | some kc => ⟨fo.name, renameInFolder (buildIdMap kc.2) fo.files⟩

/-- The per-folder progress messages of `rename_files`, in loop order: a
`No mappings found for <name>` notice when no page matches (the counter is
not advanced, as `continue` skips the increment), else the
`<k>/<total> folders processed for renaming` progress line. -/
def renameLogs (wiki : List (String × String)) (total : Nat) :
    List RFolder → Nat → List String
  | [], _ => []
  | fo :: rest, k =>
      match find_mapping_key wiki fo.name with
      | none => ("No mappings found for " ++ fo.name) :: renameLogs wiki total rest k
      | some _ =>
          (Nat.repr (k + 1) ++ "/" ++ Nat.repr total ++ " folders processed for renaming")
            :: renameLogs wiki total rest (k + 1)

/-- `rename_files` (app.py 202-256) over one partition: the resulting
subdirectories and the emitted per-folder messages. -/
def rename_files (wiki : List (String × String)) (folders : List RFolder) :
    List RFolder × List String :=
  (folders.map (renameFolderResult wiki), renameLogs wiki folders.length folders 0)

/-! ## Descriptor parser `parse_bnk_xml` (app2.py 164-210) -/

/-- The fields of one `sound_files` entry. -/
structure SoundFileInfo where
  wem_filename : String
  wav_filename : String
  source_path : Option String
deriving DecidableEq

/-- A parsed descriptor document: the `ID` attributes of the
`EmbeddedFile` elements found under `SoundSFX` elements, and for each
`MediaSource` element its `ID` attribute and the text of its `SourceFile`
child (either may be absent). -/
structure BnkXml where
  sfxEmbedded : List (Option String)
  mediaSources : List (Option String × Option String)
deriving DecidableEq

/-- `os.path.basename(xml_path).replace(".bnk.xml", "")`: remove every
(non-overlapping, left-to-right) occurrence of `.bnk.xml`, like Python
`str.replace` with an empty replacement.  The recursion consumes at least
one character per step, so the list length is enough fuel. -/
def stripBnkXmlAux : Nat → List Char → List Char
  | 0, s => s
  | _ + 1, [] => []
  | fuel + 1, a :: rest =>
      if chStarts ['.', 'b', 'n', 'k', '.', 'x', 'm', 'l'] (a :: rest) then
        stripBnkXmlAux fuel (rest.drop 7)
      else a :: stripBnkXmlAux fuel rest

def stripBnkXmlData (s : List Char) : List Char := stripBnkXmlAux s.length s

/-- `source_info["source_path"] = source_file.text` -/
def setSourcePath (m : List (String × SoundFileInfo)) (k txt : String) :
    List (String × SoundFileInfo) :=
  m.map (fun p => if p.1 = k then (p.1, ⟨p.2.wem_filename, p.2.wav_filename, some txt⟩) else p)

/-- `parse_bnk_xml` (app2.py 164-210).  `doc = none` models `ET.parse`
raising (unreadable or malformed file); the catch-all handler logs the
error and returns a bank info with empty `sound_files`.  The result pairs
the `(name, sound_files)` dictionary with the logged error messages. -/
def parse_bnk_xml (xmlBaseName : String) (doc : Option BnkXml) :
    (String × List (String × SoundFileInfo)) × List String :=
  let bank_name := String.mk (stripBnkXmlData xmlBaseName.data)
  match doc with
  | none => ((bank_name, []), ["Error parsing XML " ++ xmlBaseName])
  | some t =>
      let files := t.sfxEmbedded.foldl
        (fun m fid? =>
          match fid? with
          | some fid =>
              if fid == "" then m
              else dictInsert m fid ⟨fid ++ ".wem", fid ++ ".wem.wav", none⟩
          | none => m) []
      let files2 := t.mediaSources.foldl
        (fun m ms =>
          match ms.1 with
          | some sid =>
              if sid == "" then m
              else if sid ∈ m.map Prod.fst then
                match ms.2 with
                | some txt => if txt == "" then m else setSourcePath m sid txt
                | none => m
              else m
          | none => m) files
      ((bank_name, files2), [])

/-! ## Claim C2: the builder agrees with the spec's three-line grouping -/

/-- Spec reading (4.1): chunk the lines from the start marker into groups of
exactly three, discarding a final incomplete group. -/
def chunk3 : List String → List (List String)
  | a :: b :: c :: rest => [a, b, c] :: chunk3 rest
  | _ => []

/-- Spec reading of one `[index, baseName, commaSeparatedIDs]` group. -/
def chunkStep (m : List (String × String)) (g : List String) :
    List (String × String) :=
  match g with
  | [_, base, ids_line] => addIds m base (idTokens ids_line)
  | _ => m

/-- The ID-Map Builder as the spec words it: locate the first digit-only
line, then fold the three-line groups. -/
def idMapSpec (content : String) : List (String × String) :=
  let lines := trimmedLines content
  (chunk3 (lines.drop (startIndex lines))).foldl chunkStep []

/-! ## Claim C10: empty comma tokens are dropped before index assignment -/

/-- The assignment sequence of one group: the k-th surviving token is bound
to `{baseName}_{k}`. -/
def groupAssignments (base ids_line : String) : List (String × String) :=
  (idTokens ids_line).enum.map (fun p => (p.2, base ++ "_" ++ Nat.repr p.1))

/-! ## Claim C4 machinery: keys of the built map -/

def mapKeys {α : Type} (m : List (String × α)) : List String := m.map Prod.fst

/-- The concatenation of all surviving ID tokens over the three-line groups. -/
def allIdTokens : List String → List String
  | _idxLine :: _base :: ids_line :: rest => idTokens ids_line ++ allIdTokens rest
  | _ => []

def allIdTokensC (content : String) : List String :=
  let lines := trimmedLines content
  allIdTokens (lines.drop (startIndex lines))

/-! ## Claim C9: the builder is total under Python indexing semantics -/

/-- Python `range(start, stop, 3)`. -/
def pyRange3 (start stop : Nat) : List Nat :=
  List.range' start ((stop - start + 2) / 3) 3

/-- One iteration of `for i in range(start_index, len(lines), 3)` with
Python's indexing made explicit: `lines[i+1]` / `lines[i+2]` yield `none`
(an IndexError) when out of bounds, and the body only runs under the
`i + 2 < len(lines)` guard. -/
def groupStepO (lines : List String) (m : List (String × String)) (i : Nat) :
    Option (List (String × String)) :=
  if i + 2 < lines.length then
    match lines[i + 1]?, lines[i + 2]? with
    | some base, some ids_line => some (addIds m base (idTokens ids_line))
    | _, _ => none
  else some m

/-- Run the loop over the range list, propagating an IndexError. -/
def runGroupsO (lines : List String) : List Nat → List (String × String) →
    Option (List (String × String))
  | [], m => some m
  | i :: rest, m =>
      match groupStepO lines m i with
      | none => none
      | some m' => runGroupsO lines rest m'

/-- The `id_dict` construction with checked indexing. -/
def buildIdMapChecked (content : String) : Option (List (String × String)) :=
  let lines := trimmedLines content
  runGroupsO lines (pyRange3 (startIndex lines) lines.length) []

/-! ## Claim C8: unreadable descriptor files -/

/-- Two descriptors, the first unreadable, the second referencing ID 100. -/
def c8Banks : List BankR :=
  [⟨"A", none⟩, ⟨"B", some ["<fld type=\"sid\" name=\"sourceID\" value=\"100\"/>"]⟩]

/-! ## Claim C6: an ID claimed by two banks -/

/-- A descriptor line referencing sound ID 100. -/
def c6Line : String := "<fld type=\"sid\" name=\"sourceID\" value=\"100\"/>"

/-- Two banks whose descriptors both reference ID 100. -/
def c6Banks : List Bank := [⟨"BankA", [c6Line]⟩, ⟨"BankB", [c6Line]⟩]

/-! ## Claim C3 machinery: renamed files never match the glob again -/

/-- Every display name produced by the builder has the form
`{baseName}_{idx}` with a decimal index. -/
def dispShape (v : String) : Prop := ∃ b n, v = b ++ "_" ++ Nat.repr n

/-- Pairwise-distinct display names over one page's ID-map. -/
def distinct_display_names : List (String × String) → Bool
  | [] => true
  | kv :: rest =>
      rest.all (fun kv2 => !(kv.2 == kv2.2)) && distinct_display_names rest

/-- `distinct_display_names` checked at the page a folder matches (true
when no page matches). -/
def folder_mapping_injective (wiki : List (String × String)) (fo : RFolder) : Bool :=
  match find_mapping_key wiki fo.name with
  | none => true
  | some kc => distinct_display_names (buildIdMap kc.2)

/-! ## Generic helper lemmas -/

theorem foldl_preserve {α β : Type} (P : β → Prop) (f : β → α → β)
    (h : ∀ b a, P b → P (f b a)) : ∀ (l : List α) (b : β), P b → P (l.foldl f b)
  | [], _, hb => hb
  | a :: l, b, hb => foldl_preserve P f h l (f b a) (h b a hb)

theorem buildIdMapFrom_eq_chunk3 :
    ∀ (n : Nat) (ls : List String), ls.length ≤ n →
      ∀ m, buildIdMapFrom m ls = (chunk3 ls).foldl chunkStep m := by
  intro n
  induction n with
  | zero =>
      intro ls h m
      rcases ls with _ | ⟨a, ls⟩
      · rfl
      · simp at h
  | succ n ih =>
      intro ls h m
      rcases ls with _ | ⟨a, _ | ⟨b, _ | ⟨c, rest⟩⟩⟩
      · rfl
      · rfl
      · rfl
      · have hr : rest.length ≤ n := by
          simp only [List.length_cons] at h
          omega
        simp only [buildIdMapFrom, chunk3, List.foldl_cons, chunkStep]
        exact ih rest hr _

/-- Claim C2: the ID-Map Builder finds the first digit-only trimmed line,
reads consecutive three-line groups `[index, baseName, commaSeparatedIDs]`
from there (stopping when fewer than three lines remain), maps the ID token
at position `idx` to `{baseName}_{idx}`, and on
`"1\nFootsteps\n100, 101\n"` yields exactly
`{"100": "Footsteps_0", "101": "Footsteps_1"}`. -/
theorem claim_C2 :
    (∀ content, buildIdMap content = idMapSpec content) ∧
    buildIdMap "1\nFootsteps\n100, 101\n" =
      [("100", "Footsteps_0"), ("101", "Footsteps_1")] := by
  constructor
  · intro content
    unfold buildIdMap idMapSpec
    exact buildIdMapFrom_eq_chunk3 _ _ (Nat.le_refl _) []
  · decide

theorem addIdsFrom_eq_enumFrom :
    ∀ (ids : List String) (base : String) (idx : Nat) (m : List (String × String)),
      addIdsFrom base m idx ids =
        ((ids.enumFrom idx).map (fun p => (p.2, base ++ "_" ++ Nat.repr p.1))).foldl
          (fun m kv => dictInsert m kv.1 kv.2) m
  | [], _, _, _ => rfl
  | idv :: rest, base, idx, m => by
      simp only [addIdsFrom, List.enumFrom_cons, List.map_cons, List.foldl_cons]
      exact addIdsFrom_eq_enumFrom rest base (idx + 1) _

theorem all_filter_self {α : Type} (p : α → Bool) :
    ∀ l : List α, (l.filter p).all p = true
  | [] => rfl
  | a :: l => by
      by_cases h : p a
      · simp [List.filter_cons, h, all_filter_self p l]
      · simp [List.filter_cons, h, all_filter_self p l]

/-- Claim C10: empty or whitespace-only comma tokens are discarded before
enumeration, so each surviving ID's suffix is its position among the
surviving tokens: the builder performs exactly the assignments
`token_k -> baseName_k`, no token is empty, and for a group line
`"100,,101"` the ID `101` receives suffix `_1`, not `_2`. -/
theorem claim_C10 :
    (∀ (m : List (String × String)) (base ids_line : String),
        addIds m base (idTokens ids_line) =
          (groupAssignments base ids_line).foldl
            (fun m kv => dictInsert m kv.1 kv.2) m) ∧
    (∀ ids_line, (idTokens ids_line).all (fun t => !(t == "")) = true) ∧
    buildIdMap "1\nX\n100,,101\n" = [("100", "X_0"), ("101", "X_1")] := by
  refine ⟨fun m base ids_line => ?_, fun ids_line => ?_, by decide⟩
  · unfold addIds groupAssignments List.enum
    exact addIdsFrom_eq_enumFrom _ base 0 m
  · exact all_filter_self _ _

theorem dictInsert_mapKeys_mem {α : Type} (m : List (String × α)) (k : String)
    (v : α) (h : k ∈ mapKeys m) : mapKeys (dictInsert m k v) = mapKeys m := by
  unfold mapKeys at h ⊢
  unfold dictInsert
  rw [if_pos h, List.map_map]
  apply List.map_congr_left
  intro p _
  by_cases hp : p.1 = k
  · simp only [Function.comp_apply, if_pos hp]
    exact hp.symm
  · simp only [Function.comp_apply, if_neg hp]

theorem dictInsert_mapKeys_not_mem {α : Type} (m : List (String × α)) (k : String)
    (v : α) (h : k ∉ mapKeys m) : mapKeys (dictInsert m k v) = mapKeys m ++ [k] := by
  unfold mapKeys at h ⊢
  unfold dictInsert
  rw [if_neg h, List.map_append]
  rfl

theorem dictInsert_nodupKeys {α : Type} (m : List (String × α)) (k : String)
    (v : α) (h : (mapKeys m).Nodup) : (mapKeys (dictInsert m k v)).Nodup := by
  by_cases hk : k ∈ mapKeys m
  · rw [dictInsert_mapKeys_mem m k v hk]; exact h
  · rw [dictInsert_mapKeys_not_mem m k v hk]
    rw [List.nodup_append]
    refine ⟨h, List.nodup_singleton k, ?_⟩
    intro a ha hb
    rw [List.mem_singleton] at hb
    exact hk (hb ▸ ha)

theorem addIdsFrom_nodupKeys (base : String) :
    ∀ (ids : List String) (idx : Nat) (m : List (String × String)),
      (mapKeys m).Nodup → (mapKeys (addIdsFrom base m idx ids)).Nodup
  | [], _, _, h => h
  | _ :: rest, idx, m, h =>
      addIdsFrom_nodupKeys base rest (idx + 1) _ (dictInsert_nodupKeys m _ _ h)

theorem chunkStep_nodupKeys (m : List (String × String)) (g : List String)
    (h : (mapKeys m).Nodup) : (mapKeys (chunkStep m g)).Nodup := by
  unfold chunkStep
  rcases g with _ | ⟨a, _ | ⟨b, _ | ⟨c, _ | ⟨d, e⟩⟩⟩⟩ <;>
    first
      | exact h
      | exact addIdsFrom_nodupKeys _ _ _ _ h

theorem addIdsFrom_keys (base : String) :
    ∀ (ids : List String) (idx : Nat) (m : List (String × String)),
      (mapKeys m ++ ids).Nodup →
      mapKeys (addIdsFrom base m idx ids) = mapKeys m ++ ids
  | [], _, m, _ => by simp [addIdsFrom]
  | idv :: rest, idx, m, h => by
      have hd : (mapKeys m).Disjoint (idv :: rest) := (List.nodup_append.mp h).2.2
      have hidv : idv ∉ mapKeys m := fun hc => hd hc (List.mem_cons_self _ _)
      have hkeys := dictInsert_mapKeys_not_mem m idv (base ++ "_" ++ Nat.repr idx) hidv
      have h' : (mapKeys (dictInsert m idv (base ++ "_" ++ Nat.repr idx)) ++ rest).Nodup := by
        rw [hkeys, ← List.append_cons]
        exact h
      calc mapKeys (addIdsFrom base m idx (idv :: rest))
      _ = mapKeys (dictInsert m idv (base ++ "_" ++ Nat.repr idx)) ++ rest :=
          addIdsFrom_keys base rest (idx + 1) _ h'
      _ = mapKeys m ++ idv :: rest := by rw [hkeys, ← List.append_cons]

theorem buildIdMapFrom_keys :
    ∀ (n : Nat) (ls : List String), ls.length ≤ n →
      ∀ m, (mapKeys m ++ allIdTokens ls).Nodup →
        mapKeys (buildIdMapFrom m ls) = mapKeys m ++ allIdTokens ls := by
  intro n
  induction n with
  | zero =>
      intro ls h m _
      rcases ls with _ | ⟨a, ls⟩
      · simp [buildIdMapFrom, allIdTokens]
      · simp at h
  | succ n ih =>
      intro ls h m hnd
      rcases ls with _ | ⟨a, _ | ⟨b, _ | ⟨c, rest⟩⟩⟩
      · simp [buildIdMapFrom, allIdTokens]
      · simp [buildIdMapFrom, allIdTokens]
      · simp [buildIdMapFrom, allIdTokens]
      · have hr : rest.length ≤ n := by
          simp only [List.length_cons] at h
          omega
        have hnd' : ((mapKeys m ++ idTokens c) ++ allIdTokens rest).Nodup := by
          rw [List.append_assoc]
          exact hnd
        have h1 : (mapKeys m ++ idTokens c).Nodup := (List.nodup_append.mp hnd').1
        have hkeys : mapKeys (addIds m b (idTokens c)) = mapKeys m ++ idTokens c :=
          addIdsFrom_keys b (idTokens c) 0 m h1
        have h2 : (mapKeys (addIds m b (idTokens c)) ++ allIdTokens rest).Nodup := by
          rw [hkeys]
          exact hnd'
        show mapKeys (buildIdMapFrom (addIds m b (idTokens c)) rest) = _
        rw [ih rest hr _ h2, hkeys, List.append_assoc]
        rfl

theorem dictFind_none {α : Type} (k : String) :
    ∀ m : List (String × α), k ∉ mapKeys m →
      m.find? (fun p => p.1 == k) = none
  | [], _ => rfl
  | p :: rest, h => by
      have h1 : p.1 ≠ k := fun hc => h (by simp [mapKeys, hc])
      have h2 : k ∉ mapKeys rest := fun hc => h (by simp [mapKeys] at hc ⊢; right; exact hc)
      rw [List.find?_cons_of_neg _ (by simp [h1])]
      exact dictFind_none k rest h2

theorem dictFind_update {α : Type} (k : String) (v : α) :
    ∀ m : List (String × α), k ∈ mapKeys m →
      (m.map (fun p => if p.1 = k then (k, v) else p)).find? (fun p => p.1 == k) =
        some (k, v)
  | [], h => by simp [mapKeys] at h
  | p :: rest, h => by
      by_cases hp : p.1 = k
      · simp only [List.map_cons, if_pos hp]
        rw [List.find?_cons_of_pos _ (by simp)]
      · have h2 : k ∈ mapKeys rest := by
          simp [mapKeys] at h
          rcases h with h | h
          · exact absurd h.symm hp
          · simpa [mapKeys] using h
        simp only [List.map_cons, if_neg hp]
        rw [List.find?_cons_of_neg _ (by simp [hp])]
        exact dictFind_update k v rest h2

theorem dictFind_dictInsert {α : Type} (m : List (String × α)) (k : String) (v : α) :
    dictFind (dictInsert m k v) k = some v := by
  unfold dictFind dictInsert
  by_cases hk : k ∈ mapKeys m
  · rw [if_pos (by simpa [mapKeys] using hk), dictFind_update k v m hk]
    rfl
  · rw [if_neg (by simpa [mapKeys] using hk), List.find?_append, dictFind_none k m hk]
    rw [List.find?_cons_of_pos _ (by simp)]
    rfl

/-- Claim C4: for well-formed triple tables the builder emits one entry per
ID token (so with globally distinct tokens the map's key list is exactly the
token list, and its size the total token count), its keys are always
duplicate-free, and a repeated ID takes the later assignment
(last-write-wins), as on `"1\nA\n100\n2\nB\n100\n"`. -/
theorem claim_C4 :
    (∀ content, (mapKeys (buildIdMap content)).Nodup) ∧
    (∀ content, (allIdTokensC content).Nodup →
        mapKeys (buildIdMap content) = allIdTokensC content ∧
        (buildIdMap content).length = (allIdTokensC content).length) ∧
    (∀ (m : List (String × String)) (k : String) (v : String),
        dictFind (dictInsert m k v) k = some v) ∧
    buildIdMap "1\nA\n100\n2\nB\n100\n" = [("100", "B_0")] := by
  refine ⟨fun content => ?_, fun content h => ?_, dictFind_dictInsert, by decide⟩
  · unfold buildIdMap
    rw [buildIdMapFrom_eq_chunk3 _ _ (Nat.le_refl _)]
    exact foldl_preserve (fun m => (mapKeys m).Nodup) chunkStep chunkStep_nodupKeys _ _
      List.nodup_nil
  · have hkeys : mapKeys (buildIdMap content) = allIdTokensC content := by
      unfold buildIdMap
      exact buildIdMapFrom_keys _ _ (Nat.le_refl _) [] (by simpa [mapKeys] using h)
    refine ⟨hkeys, ?_⟩
    have : (mapKeys (buildIdMap content)).length = (buildIdMap content).length :=
      List.length_map _ _
    rw [← this, hkeys]

/-- Witness for the hypothesised part of C4, at the Footsteps page. -/
theorem claim_C4_witness :
    mapKeys (buildIdMap "1\nFootsteps\n100, 101\n") =
        allIdTokensC "1\nFootsteps\n100, 101\n" ∧
      (buildIdMap "1\nFootsteps\n100, 101\n").length =
        (allIdTokensC "1\nFootsteps\n100, 101\n").length :=
  claim_C4.2.1 "1\nFootsteps\n100, 101\n" (by decide)

theorem buildIdMapFrom_short (m : List (String × String)) :
    ∀ ls : List String, ls.length < 3 → buildIdMapFrom m ls = m := by
  intro ls h
  rcases ls with _ | ⟨a, _ | ⟨b, _ | ⟨c, rest⟩⟩⟩
  · rfl
  · rfl
  · rfl
  · simp at h
    omega

theorem pyRange3_stop (i stop : Nat) (h : stop ≤ i) : pyRange3 i stop = [] := by
  unfold pyRange3
  have h0 : stop - i = 0 := by omega
  rw [h0]
  rfl

theorem runGroupsO_eq :
    ∀ (n : Nat) (ls : List String) (i : Nat), ls.length - i ≤ n →
      ∀ m, runGroupsO ls (pyRange3 i ls.length) m =
        some (buildIdMapFrom m (ls.drop i)) := by
  intro n
  induction n with
  | zero =>
      intro ls i h m
      have hle : ls.length ≤ i := by omega
      rw [pyRange3_stop i ls.length hle, List.drop_eq_nil_of_le hle]
      rfl
  | succ n ih =>
      intro ls i h m
      by_cases h3 : i + 2 < ls.length
      · have hd3 : 3 ≤ ls.length - i := by omega
        have hsub : ls.length - (i + 3) = ls.length - i - 3 := by omega
        have harith : (ls.length - i + 2) / 3 = (ls.length - (i + 3) + 2) / 3 + 1 := by
          rw [hsub]
          have he : ls.length - i + 2 = (ls.length - i - 3 + 2) + 3 := by omega
          rw [he, Nat.add_div_right _ (by norm_num)]
        have hi1 : i + 1 < ls.length := by omega
        have hi2 : i + 2 < ls.length := h3
        have hi0 : i < ls.length := by omega
        have hdrop : ls.drop i = ls[i] :: ls[i + 1] :: ls[i + 2] :: ls.drop (i + 3) := by
          rw [List.drop_eq_getElem_cons hi0, List.drop_eq_getElem_cons hi1,
            List.drop_eq_getElem_cons hi2]
        have hrange : pyRange3 i ls.length = i :: pyRange3 (i + 3) ls.length := by
          unfold pyRange3
          rw [harith, List.range'_succ]
        rw [hrange]
        show (match groupStepO ls m i with
          | none => none
          | some m' => runGroupsO ls (pyRange3 (i + 3) ls.length) m') = _
        have hstep : groupStepO ls m i =
            some (addIds m (ls[i + 1]) (idTokens (ls[i + 2]))) := by
          unfold groupStepO
          rw [if_pos h3, List.getElem?_eq_getElem hi1, List.getElem?_eq_getElem hi2]
        rw [hstep]
        have hrec : ls.length - (i + 3) ≤ n := by omega
        show runGroupsO ls (pyRange3 (i + 3) ls.length)
            (addIds m (ls[i + 1]) (idTokens (ls[i + 2]))) = _
        rw [ih ls (i + 3) hrec _, hdrop]
        rfl
      · by_cases hi : i < ls.length
        · have hd : ls.length - i = 1 ∨ ls.length - i = 2 := by omega
          have hone : (ls.length - i + 2) / 3 = 1 := by
            rcases hd with hd | hd <;> rw [hd]
          have hrange : pyRange3 i ls.length = [i] := by
            unfold pyRange3
            rw [hone, List.range'_succ]
            rfl
          have hstep : groupStepO ls m i = some m := by
            unfold groupStepO
            rw [if_neg h3]
          have hshort : (ls.drop i).length < 3 := by
            rw [List.length_drop]
            omega
          rw [hrange]
          show (match groupStepO ls m i with
            | none => none
            | some m' => runGroupsO ls [] m') = _
          rw [hstep, buildIdMapFrom_short m _ hshort]
          rfl
        · have hle : ls.length ≤ i := by omega
          rw [pyRange3_stop i ls.length hle, List.drop_eq_nil_of_le hle]
          rfl

/-- Claim C9: building the ID-map never raises — with Python's fallible
indexing made explicit the loop always returns the map (the guarded
indices are always in bounds), and when no digit-only line exists the
start index silently defaults to 0. -/
theorem claim_C9 :
    (∀ content, buildIdMapChecked content = some (buildIdMap content)) ∧
    (∀ ls : List String, ls.all (fun l => !(isDigitStr l)) = true →
        startIndex ls = 0) := by
  constructor
  · intro content
    unfold buildIdMapChecked buildIdMap
    exact runGroupsO_eq _ _ _ (Nat.le_refl _) []
  · intro ls h
    unfold startIndex
    have hnone : ls.findIdx? isDigitStr = none := by
      rw [List.findIdx?_eq_none_iff]
      intro x hx
      have hx' := List.all_eq_true.mp h x hx
      simpa using hx'
    rw [hnone]

/-- Witness for the hypothesised part of C9: a page with no digit-only
line starts at index 0. -/
theorem claim_C9_witness : startIndex ["abc", "x1"] = 0 :=
  claim_C9.2 ["abc", "x1"] (by decide)

/-! ## Claim C5: sourceID extraction from marker lines -/

theorem splitOnChar_ne_nil (c : Char) : ∀ l : List Char, splitOnChar c l ≠ []
  | [] => by simp [splitOnChar]
  | a :: rest => by
      unfold splitOnChar
      cases h : splitOnChar c rest with
      | nil => simp
      | cons g gs =>
          by_cases hac : a = c
          · simp [hac]
          · simp [hac]

theorem splitOnChar_length (c : Char) :
    ∀ l : List Char, (splitOnChar c l).length = l.count c + 1
  | [] => by simp [splitOnChar]
  | a :: rest => by
      unfold splitOnChar
      cases h : splitOnChar c rest with
      | nil => exact absurd h (splitOnChar_ne_nil c rest)
      | cons g gs =>
          have hr : (g :: gs).length = rest.count c + 1 := by
            rw [← h]
            exact splitOnChar_length c rest
          show (if a = c then [] :: g :: gs else (a :: g) :: gs).length =
            (a :: rest).count c + 1
          by_cases hac : a = c
          · rw [if_pos hac]
            simp only [List.length_cons] at hr ⊢
            simp only [List.count_cons, hac]
            simp
            omega
          · rw [if_neg hac]
            simp only [List.length_cons] at hr ⊢
            simp only [List.count_cons]
            simp [hac]
            omega

theorem chStarts_exists {p : List Char} :
    ∀ {s : List Char}, chStarts p s = true → ∃ t, s = p ++ t := by
  induction p with
  | nil => intro s _; exact ⟨s, rfl⟩
  | cons a p ih =>
      intro s h
      cases s with
      | nil => simp [chStarts] at h
      | cons b s' =>
          unfold chStarts at h
          by_cases hab : a = b
          · rw [if_pos hab] at h
            obtain ⟨t, ht⟩ := ih h
            exact ⟨t, by rw [List.cons_append, ← hab, ht]⟩
          · rw [if_neg hab] at h
            simp at h

theorem chHasSub_exists {p : List Char} :
    ∀ {s : List Char}, chHasSub p s = true → ∃ u t, s = u ++ (p ++ t) := by
  intro s
  induction s with
  | nil =>
      intro h
      unfold chHasSub at h
      obtain ⟨t, ht⟩ := chStarts_exists h
      exact ⟨[], t, ht⟩
  | cons a rest ih =>
      intro h
      unfold chHasSub at h
      rcases Bool.or_eq_true_iff.mp h with h | h
      · obtain ⟨t, ht⟩ := chStarts_exists h
        exact ⟨[], t, ht⟩
      · obtain ⟨u, t, ht⟩ := ih h
        exact ⟨a :: u, t, by rw [List.cons_append, ht]⟩

theorem count_quotes_of_marker {line : String} (h : isMarkerLine line = true) :
    2 ≤ line.data.count '\"' := by
  unfold isMarkerLine pyContains at h
  obtain ⟨u, t, ht⟩ := chHasSub_exists h
  have hm : sourceIDMarker.data.count '\"' = 2 := by decide
  rw [ht]
  simp only [List.count_append]
  omega

/-- Claim C5: on every line containing the literal marker `name="sourceID"`
the scanner returns the second-to-last token of the split on double quotes
(splitting always yields at least three parts there), and forms the loose
filename `{id}.wem.wav` from it. -/
theorem claim_C5 (line : String) (h : isMarkerLine line = true) :
    ∃ i, lineId line = some i ∧
      (pySplit '\"' line)[(pySplit '\"' line).length - 2]? = some i ∧
      lineFilename line = some (i ++ ".wem.wav") := by
  have hlen : 3 ≤ (pySplit '\"' line).length := by
    unfold pySplit
    rw [List.length_map, splitOnChar_length]
    have := count_quotes_of_marker h
    omega
  have hlt : (pySplit '\"' line).length - 2 < (pySplit '\"' line).length := by omega
  have hid : lineId line = some ((pySplit '\"' line)[(pySplit '\"' line).length - 2]) := by
    unfold lineId pyNegGet2
    rw [if_pos h, if_pos (by omega)]
    exact List.getElem?_eq_getElem hlt
  refine ⟨(pySplit '\"' line)[(pySplit '\"' line).length - 2], hid,
    List.getElem?_eq_getElem hlt, ?_⟩
  unfold lineFilename
  rw [hid]
  rfl

/-- Claim C8 counterexample: in app.py an unreadable descriptor escalates —
the walk stops with an escaped exception, bank B is never processed (no
subdirectory, the loose file stays), contradicting the claim that such a
failure never aborts the batch. -/
theorem claim_C8_counterexample :
    create_banks_folders_fallible c8Banks (⟨["100.wem.wav"], []⟩, []) =
      ((⟨["100.wem.wav"], [("A", [])]⟩, []),
        some "OSError opening descriptor of bank A") ∧
    ¬ "B" ∈ (create_banks_folders_fallible c8Banks
        (⟨["100.wem.wav"], []⟩, [])).1.1.folders.map Prod.fst := by
  exact ⟨by decide, by decide⟩

/-- Claim C8 (amended): only app2.py's `parse_bnk_xml` has the claimed
behaviour — a failed parse is caught, one error line is logged and an empty
`sound_files` table is returned, so the caller continues; in app.py's
`create_banks_folders` there is no handler, and a read failure on any
descriptor aborts the walk at that bank with an escaped exception. -/
theorem claim_C8 :
    (∀ name, (parse_bnk_xml name none).1.2 = [] ∧
      (parse_bnk_xml name none).2 = ["Error parsing XML " ++ name]) ∧
    (∀ (b : BankR) (rest : List BankR)
        (acc : DirState × List (String × String)), b.xml = none →
      create_banks_folders_fallible (b :: rest) acc =
        ((⟨acc.1.loose, ensureFolder acc.1.folders b.name⟩, acc.2),
          some ("OSError opening descriptor of bank " ++ b.name))) := by
  constructor
  · intro name
    exact ⟨rfl, rfl⟩
  · intro b rest acc hx
    simp [create_banks_folders_fallible, hx]

/-- Witness for the hypothesised part of C8. -/
theorem claim_C8_witness :
    create_banks_folders_fallible [⟨"A", none⟩] (⟨[], []⟩, []) =
      ((⟨[], ensureFolder [] "A"⟩, []),
        some ("OSError opening descriptor of bank " ++ "A")) :=
  claim_C8.2 ⟨"A", none⟩ [] (⟨[], []⟩, []) rfl

/-! ## Claim C1 machinery: grouping lemmas -/

theorem stepLine_cases (b : String) (acc : DirState × List (String × String))
    (l : String) :
    (lineFilename l = none ∧ stepLine b acc l = acc) ∨
    (∃ fn, lineFilename l = some fn ∧ fn ∉ acc.1.loose ∧ stepLine b acc l = acc) ∨
    (∃ fn, lineFilename l = some fn ∧ fn ∈ acc.1.loose ∧
      stepLine b acc l =
        (⟨acc.1.loose.erase fn, addToFolder acc.1.folders b fn⟩, acc.2 ++ [(b, fn)])) := by
  cases hf : lineFilename l with
  | none => exact Or.inl ⟨rfl, by simp [stepLine, hf]⟩
  | some fn =>
      by_cases hin : fn ∈ acc.1.loose
      · exact Or.inr (Or.inr ⟨fn, rfl, hin, by simp [stepLine, hf, hin]⟩)
      · exact Or.inr (Or.inl ⟨fn, rfl, hin, by simp [stepLine, hf, hin]⟩)

theorem stepLine_loose_sub (b : String) (acc : DirState × List (String × String))
    (l : String) (x : String) (hx : x ∈ (stepLine b acc l).1.loose) :
    x ∈ acc.1.loose := by
  rcases stepLine_cases b acc l with ⟨_, hc⟩ | ⟨fn, _, _, hc⟩ | ⟨fn, _, _, hc⟩
  · rw [hc] at hx; exact hx
  · rw [hc] at hx; exact hx
  · rw [hc] at hx; exact List.mem_of_mem_erase hx

theorem stepLine_nodup (b : String) (acc : DirState × List (String × String))
    (l : String) (h : acc.1.loose.Nodup) : (stepLine b acc l).1.loose.Nodup := by
  rcases stepLine_cases b acc l with ⟨_, hc⟩ | ⟨fn, _, _, hc⟩ | ⟨fn, _, _, hc⟩
  · rw [hc]; exact h
  · rw [hc]; exact h
  · rw [hc]; exact h.erase fn

theorem addToFolder_keys (fs : List (String × List String)) (n fn : String) :
    (addToFolder fs n fn).map Prod.fst = fs.map Prod.fst := by
  unfold addToFolder
  rw [List.map_map]
  apply List.map_congr_left
  intro p _
  by_cases hp : p.1 = n
  · simp [hp]
  · simp [hp]

theorem stepLine_keys (b : String) (acc : DirState × List (String × String))
    (l : String) :
    (stepLine b acc l).1.folders.map Prod.fst = acc.1.folders.map Prod.fst := by
  rcases stepLine_cases b acc l with ⟨_, hc⟩ | ⟨fn, _, _, hc⟩ | ⟨fn, _, _, hc⟩
  · rw [hc]
  · rw [hc]
  · rw [hc]; exact addToFolder_keys _ _ _

theorem foldLines_loose_sub (b : String) :
    ∀ (lines : List String) (acc : DirState × List (String × String)) (x : String),
      x ∈ (lines.foldl (stepLine b) acc).1.loose → x ∈ acc.1.loose
  | [], _, _, hx => hx
  | l :: ls, acc, x, hx =>
      stepLine_loose_sub b acc l x (foldLines_loose_sub b ls _ x hx)

theorem foldLines_nodup (b : String) :
    ∀ (lines : List String) (acc : DirState × List (String × String)),
      acc.1.loose.Nodup → (lines.foldl (stepLine b) acc).1.loose.Nodup
  | [], _, h => h
  | l :: ls, acc, h => foldLines_nodup b ls _ (stepLine_nodup b acc l h)

theorem foldLines_keys (b : String) :
    ∀ (lines : List String) (acc : DirState × List (String × String)),
      (lines.foldl (stepLine b) acc).1.folders.map Prod.fst =
        acc.1.folders.map Prod.fst
  | [], _ => rfl
  | l :: ls, acc => by
      rw [List.foldl_cons, foldLines_keys b ls _, stepLine_keys]

theorem ensureFolder_keys_sub (fs : List (String × List String)) (n x : String)
    (hx : x ∈ fs.map Prod.fst) : x ∈ (ensureFolder fs n).map Prod.fst := by
  unfold ensureFolder
  by_cases h : n ∈ fs.map Prod.fst
  · rw [if_pos h]; exact hx
  · rw [if_neg h, List.map_append]; exact List.mem_append_left _ hx

theorem ensureFolder_self (fs : List (String × List String)) (n : String) :
    n ∈ (ensureFolder fs n).map Prod.fst := by
  unfold ensureFolder
  by_cases h : n ∈ fs.map Prod.fst
  · rw [if_pos h]; exact h
  · rw [if_neg h, List.map_append]
    exact List.mem_append_right _ (by simp)

theorem runBank_loose_sub (acc : DirState × List (String × String)) (b : Bank)
    (x : String) (hx : x ∈ (runBank acc b).1.loose) : x ∈ acc.1.loose := by
  unfold runBank at hx
  exact foldLines_loose_sub b.name b.lines
    (⟨acc.1.loose, ensureFolder acc.1.folders b.name⟩, acc.2) x hx

theorem runBank_nodup (acc : DirState × List (String × String)) (b : Bank)
    (h : acc.1.loose.Nodup) : (runBank acc b).1.loose.Nodup := by
  unfold runBank
  exact foldLines_nodup b.name b.lines
    (⟨acc.1.loose, ensureFolder acc.1.folders b.name⟩, acc.2) h

theorem runBank_keys_mono (acc : DirState × List (String × String)) (b : Bank)
    (x : String) (hx : x ∈ acc.1.folders.map Prod.fst) :
    x ∈ (runBank acc b).1.folders.map Prod.fst := by
  unfold runBank
  rw [foldLines_keys]
  exact ensureFolder_keys_sub _ _ _ hx

theorem runBank_name_mem (acc : DirState × List (String × String)) (b : Bank) :
    b.name ∈ (runBank acc b).1.folders.map Prod.fst := by
  unfold runBank
  rw [foldLines_keys]
  exact ensureFolder_self _ _

theorem groupFold_loose_sub :
    ∀ (banks : List Bank) (acc : DirState × List (String × String)) (x : String),
      x ∈ (banks.foldl runBank acc).1.loose → x ∈ acc.1.loose
  | [], _, _, hx => hx
  | b :: bs, acc, x, hx =>
      runBank_loose_sub acc b x (groupFold_loose_sub bs _ x hx)

theorem groupFold_nodup :
    ∀ (banks : List Bank) (acc : DirState × List (String × String)),
      acc.1.loose.Nodup → (banks.foldl runBank acc).1.loose.Nodup
  | [], _, h => h
  | b :: bs, acc, h => groupFold_nodup bs _ (runBank_nodup acc b h)

theorem groupFold_keys_mono :
    ∀ (banks : List Bank) (acc : DirState × List (String × String)) (x : String),
      x ∈ acc.1.folders.map Prod.fst →
      x ∈ (banks.foldl runBank acc).1.folders.map Prod.fst
  | [], _, _, hx => hx
  | b :: bs, acc, x, hx =>
      groupFold_keys_mono bs _ x (runBank_keys_mono acc b x hx)

theorem groupFold_names :
    ∀ (banks : List Bank) (acc : DirState × List (String × String)) (b : Bank),
      b ∈ banks → b.name ∈ (banks.foldl runBank acc).1.folders.map Prod.fst
  | [], _, b, hb => absurd hb (List.not_mem_nil b)
  | b0 :: bs, acc, b, hb => by
      rcases List.mem_cons.mp hb with rfl | hb'
      · exact groupFold_keys_mono bs _ b.name (runBank_name_mem acc b)
      · exact groupFold_names bs _ b hb'

theorem foldLines_absent (b : String) :
    ∀ (lines : List String) (acc : DirState × List (String × String)),
      acc.1.loose.Nodup →
      ∀ l ∈ lines, ∀ fn, lineFilename l = some fn →
        fn ∉ (lines.foldl (stepLine b) acc).1.loose
  | [], _, _, l, hl, _, _ => absurd hl (List.not_mem_nil l)
  | l0 :: ls, acc, hnd, l, hl, fn, hf => by
      rcases List.mem_cons.mp hl with rfl | hl'
      · have h1 : fn ∉ (stepLine b acc l).1.loose := by
          rcases stepLine_cases b acc l with ⟨hc, _⟩ | ⟨fn', hf', hmem, hc⟩ |
            ⟨fn', hf', hmem, hc⟩
          · rw [hf] at hc; exact absurd hc (Option.some_ne_none fn)
          · rw [hf] at hf'
            rw [hc]
            exact (Option.some.injEq _ _ ▸ hf' : fn = fn') ▸ hmem
          · rw [hf] at hf'
            have hfn : fn = fn' := by injection hf'
            rw [hc]
            subst hfn
            exact hnd.not_mem_erase
        exact fun hmem => h1 (foldLines_loose_sub b ls _ fn hmem)
      · exact foldLines_absent b ls _ (stepLine_nodup b acc l0 hnd) l hl' fn hf

theorem groupFold_absent :
    ∀ (banks : List Bank) (acc : DirState × List (String × String)),
      acc.1.loose.Nodup →
      ∀ b ∈ banks, ∀ l ∈ b.lines, ∀ fn, lineFilename l = some fn →
        fn ∉ (banks.foldl runBank acc).1.loose
  | [], _, _, b, hb, _, _, _, _ => absurd hb (List.not_mem_nil b)
  | b0 :: bs, acc, hnd, b, hb, l, hl, fn, hf => by
      rcases List.mem_cons.mp hb with rfl | hb'
      · have h1 : fn ∉ (runBank acc b).1.loose := by
          unfold runBank
          exact foldLines_absent b.name b.lines
            (⟨acc.1.loose, ensureFolder acc.1.folders b.name⟩, acc.2) hnd l hl fn hf
        exact fun hmem => h1 (groupFold_loose_sub bs _ fn hmem)
      · exact groupFold_absent bs _ (runBank_nodup acc b0 hnd) b hb' l hl fn hf

theorem foldLines_noop (b : String) :
    ∀ (lines : List String) (acc : DirState × List (String × String)),
      (∀ l ∈ lines, ∀ fn, lineFilename l = some fn → fn ∉ acc.1.loose) →
      lines.foldl (stepLine b) acc = acc
  | [], _, _ => rfl
  | l :: ls, acc, h => by
      have hstep : stepLine b acc l = acc := by
        rcases stepLine_cases b acc l with ⟨_, hc⟩ | ⟨fn, _, _, hc⟩ |
          ⟨fn, hf, hin, _⟩
        · exact hc
        · exact hc
        · exact absurd hin (h l (List.mem_cons_self l ls) fn hf)
      rw [List.foldl_cons, hstep]
      exact foldLines_noop b ls acc (fun l' hl' => h l' (List.mem_cons_of_mem _ hl'))

theorem runBank_noop (acc : DirState × List (String × String)) (b : Bank)
    (hname : b.name ∈ acc.1.folders.map Prod.fst)
    (habs : ∀ l ∈ b.lines, ∀ fn, lineFilename l = some fn → fn ∉ acc.1.loose) :
    runBank acc b = acc := by
  unfold runBank
  have he : ensureFolder acc.1.folders b.name = acc.1.folders := by
    unfold ensureFolder
    rw [if_pos hname]
  rw [he]
  exact foldLines_noop b.name b.lines acc habs

theorem groupFold_noop :
    ∀ (banks : List Bank) (acc : DirState × List (String × String)),
      (∀ b ∈ banks, b.name ∈ acc.1.folders.map Prod.fst) →
      (∀ b ∈ banks, ∀ l ∈ b.lines, ∀ fn, lineFilename l = some fn →
        fn ∉ acc.1.loose) →
      banks.foldl runBank acc = acc
  | [], _, _, _ => rfl
  | b0 :: bs, acc, hn, ha => by
      have hstep : runBank acc b0 = acc :=
        runBank_noop acc b0 (hn b0 (List.mem_cons_self b0 bs))
          (ha b0 (List.mem_cons_self b0 bs))
      rw [List.foldl_cons, hstep]
      exact groupFold_noop bs acc (fun b hb => hn b (List.mem_cons_of_mem _ hb))
        (fun b hb => ha b (List.mem_cons_of_mem _ hb))

/-- Claim C1: running the grouping engine a second time on the directory
state it produced moves, creates and renames nothing — the result is the
same state, with an empty move list. -/
theorem claim_C1 (banks : List Bank) (st : DirState) (hnd : st.loose.Nodup) :
    create_banks_folders banks (create_banks_folders banks st).1 =
      ((create_banks_folders banks st).1, []) := by
  unfold create_banks_folders
  apply groupFold_noop
  · intro b hb
    exact groupFold_names banks (st, []) b hb
  · intro b hb l hl fn hf
    exact groupFold_absent banks (st, []) hnd b hb l hl fn hf

/-- Witness for C1 at a concrete two-bank state. -/
theorem claim_C1_witness :
    create_banks_folders
        [⟨"BankA", ["<fld type=\"sid\" name=\"sourceID\" value=\"100\"/>"]⟩]
        (create_banks_folders
          [⟨"BankA", ["<fld type=\"sid\" name=\"sourceID\" value=\"100\"/>"]⟩]
          ⟨["100.wem.wav", "7.wem.wav"], []⟩).1 =
      ((create_banks_folders
          [⟨"BankA", ["<fld type=\"sid\" name=\"sourceID\" value=\"100\"/>"]⟩]
          ⟨["100.wem.wav", "7.wem.wav"], []⟩).1, []) :=
  claim_C1 _ _ (by decide)

/-- Claim C6 counterexample: in exactly the claimed scenario (two banks
referencing ID 100, the loose pool holding `100.wem.wav`) the first bank
receives the file, the second stays empty and does not crash — but no
emitted message contains "skipped": the claimed notice does not exist. -/
theorem claim_C6_counterexample :
    create_banks_folders c6Banks ⟨["100.wem.wav"], []⟩ =
      (⟨[], [("BankA", ["100.wem.wav"]), ("BankB", [])]⟩,
        [("BankA", "100.wem.wav")]) ∧
    (groupLogs c6Banks).any (fun msg => chHasSub "skipped".data msg.data) = false := by
  exact ⟨by decide, by decide⟩

/-- Claim C6 (amended): when two banks both reference ID 100, after grouping
the first-processed bank's subdirectory holds `100.wem.wav`, the loose copy
is gone, the second bank's subdirectory has no matching file and processing
it does not crash; the skip is silent — the only messages are the per-bank
`Grouped files` notices, and no "skipped" notice is logged. -/
theorem claim_C6 :
    create_banks_folders c6Banks ⟨["100.wem.wav"], []⟩ =
      (⟨[], [("BankA", ["100.wem.wav"]), ("BankB", [])]⟩,
        [("BankA", "100.wem.wav")]) ∧
    groupLogs c6Banks =
      ["Grouped files for bank \x27BankA\x27", "Grouped files for bank \x27BankB\x27"] := by
  exact ⟨by decide, by decide⟩

/-! ## Digits of `Nat.repr` (for the rename-engine proofs) -/

theorem digitChar_isDigit : ∀ m : Nat, m < 10 → (Nat.digitChar m).isDigit = true := by
  decide

theorem toDigitsCore_all_digit :
    ∀ (fuel n : Nat) (ds : List Char), (∀ c ∈ ds, c.isDigit = true) →
      ∀ c ∈ Nat.toDigitsCore 10 fuel n ds, c.isDigit = true := by
  intro fuel
  induction fuel with
  | zero => intro n ds h c hc; exact h c hc
  | succ fuel ih =>
      intro n ds h c hc
      have hdig : (Nat.digitChar (n % 10)).isDigit = true :=
        digitChar_isDigit (n % 10) (Nat.mod_lt n (by norm_num))
      rw [Nat.toDigitsCore] at hc
      by_cases hz : n / 10 = 0
      · simp only [hz, if_pos] at hc
        rcases List.mem_cons.mp hc with rfl | hc'
        · exact hdig
        · exact h c hc'
      · simp only [if_neg hz] at hc
        refine ih (n / 10) (Nat.digitChar (n % 10) :: ds) ?_ c hc
        intro d hd
        rcases List.mem_cons.mp hd with rfl | hd'
        · exact hdig
        · exact h d hd'

theorem toDigitsCore_ne_nil_of_ds :
    ∀ (fuel n : Nat) (ds : List Char), ds ≠ [] → Nat.toDigitsCore 10 fuel n ds ≠ [] := by
  intro fuel
  induction fuel with
  | zero => intro n ds h; exact h
  | succ fuel ih =>
      intro n ds h
      rw [Nat.toDigitsCore]
      by_cases hz : n / 10 = 0
      · simp only [hz, if_pos]
        exact List.cons_ne_nil _ _
      · simp only [if_neg hz]
        exact ih (n / 10) _ (List.cons_ne_nil _ _)

theorem natRepr_ne_nil (n : Nat) : (Nat.repr n).data ≠ [] := by
  show Nat.toDigitsCore 10 (n + 1) n [] ≠ []
  rw [Nat.toDigitsCore]
  by_cases hz : n / 10 = 0
  · simp only [hz, if_pos]
    exact List.cons_ne_nil _ _
  · simp only [if_neg hz]
    exact toDigitsCore_ne_nil_of_ds n (n / 10) _ (List.cons_ne_nil _ _)

theorem natRepr_all_digit (n : Nat) : ∀ c ∈ (Nat.repr n).data, c.isDigit = true := by
  intro c hc
  exact toDigitsCore_all_digit (n + 1) n []
    (fun d hd => absurd hd (List.not_mem_nil d)) c hc

theorem dictInsert_mem {α : Type} {m : List (String × α)} {k : String} {v : α}
    {kv : String × α} (h : kv ∈ dictInsert m k v) : kv ∈ m ∨ kv = (k, v) := by
  unfold dictInsert at h
  by_cases hk : k ∈ m.map Prod.fst
  · rw [if_pos hk] at h
    obtain ⟨p, hp, hpe⟩ := List.mem_map.mp h
    by_cases hpk : p.1 = k
    · right
      rw [← hpe, if_pos hpk]
    · left
      rw [← hpe, if_neg hpk]
      exact hp
  · rw [if_neg hk] at h
    rcases List.mem_append.mp h with h | h
    · left; exact h
    · right; simpa using h

theorem addIdsFrom_shape (base : String) :
    ∀ (ids : List String) (idx : Nat) (m : List (String × String)),
      (∀ kv ∈ m, dispShape kv.2) →
      ∀ kv ∈ addIdsFrom base m idx ids, dispShape kv.2
  | [], _, _, h => h
  | _ :: rest, idx, m, h => by
      refine addIdsFrom_shape base rest (idx + 1) _ ?_
      intro kv hkv
      rcases dictInsert_mem hkv with hkv' | rfl
      · exact h kv hkv'
      · exact ⟨base, idx, rfl⟩

theorem chunkStep_shape (m : List (String × String)) (g : List String)
    (h : ∀ kv ∈ m, dispShape kv.2) : ∀ kv ∈ chunkStep m g, dispShape kv.2 := by
  unfold chunkStep
  rcases g with _ | ⟨a, _ | ⟨b, _ | ⟨c, _ | ⟨d, e⟩⟩⟩⟩ <;>
    first
      | exact h
      | exact addIdsFrom_shape _ _ _ _ h

theorem buildIdMap_shape (content : String) :
    ∀ kv ∈ buildIdMap content, dispShape kv.2 := by
  unfold buildIdMap
  rw [buildIdMapFrom_eq_chunk3 _ _ (Nat.le_refl _)]
  exact foldl_preserve (fun m => ∀ kv ∈ m, dispShape kv.2) chunkStep
    chunkStep_shape _ [] (fun kv hkv => absurd hkv (List.not_mem_nil kv))

theorem chStarts_cons_same (a : Char) (p s : List Char) :
    chStarts (a :: p) (a :: s) = chStarts p s := by
  simp [chStarts]

theorem shape_not_glob {v : String} (h : dispShape v) :
    matches_wem_wav (v ++ ".wav") = false := by
  obtain ⟨b, n, rfl⟩ := h
  obtain ⟨c, cs, hc⟩ := List.exists_cons_of_ne_nil
    (List.reverse_ne_nil_iff.mpr (natRepr_ne_nil n))
  have hcd : c.isDigit = true := by
    have hcm : c ∈ (Nat.repr n).data := by
      rw [← List.mem_reverse, hc]
      exact List.mem_cons_self c cs
    exact natRepr_all_digit n c hcm
  have hcne : ('m' : Char) ≠ c := by
    intro he
    rw [← he] at hcd
    exact absurd hcd (by decide)
  unfold matches_wem_wav pyEndsWith
  have hrev : (b ++ "_" ++ Nat.repr n ++ ".wav").data.reverse =
      'v' :: 'a' :: 'w' :: '.' :: c :: (cs ++ '_' :: b.data.reverse) := by
    have h1 : (b ++ "_" ++ Nat.repr n ++ ".wav").data =
        b.data ++ ['_'] ++ (Nat.repr n).data ++ ['.', 'w', 'a', 'v'] := by
      rw [String.data_append, String.data_append, String.data_append,
        show (".wav" : String).data = ['.', 'w', 'a', 'v'] from by decide,
        show ("_" : String).data = ['_'] from by decide]
    rw [h1, List.reverse_append, List.reverse_append, List.reverse_append, hc]
    rfl
  rw [show (".wem.wav" : String).data.reverse =
    ['v', 'a', 'w', '.', 'm', 'e', 'w', '.'] from by decide, hrev]
  rw [chStarts_cons_same, chStarts_cons_same, chStarts_cons_same, chStarts_cons_same]
  show (chStarts ('m' :: ['e', 'w', '.']) (c :: (cs ++ '_' :: b.data.reverse)) && _) = false
  unfold chStarts
  rw [if_neg hcne]
  rfl

/-! ## Claim C3 machinery: the rename fold and its invariant -/

theorem dictFind_mem {dict : List (String × String)} {k v : String}
    (h : dictFind dict k = some v) : (k, v) ∈ dict := by
  unfold dictFind at h
  cases hf : dict.find? (fun q => q.1 == k) with
  | none => rw [hf] at h; simp at h
  | some p =>
      rw [hf] at h
      simp only [Option.map_some'] at h
      have hp1 : p.1 = k := by simpa using List.find?_some hf
      have hmem := List.mem_of_find?_eq_some hf
      have hpe : p = (k, v) := by
        rw [Prod.ext_iff]
        exact ⟨hp1, by injection h⟩
      rw [← hpe]
      exact hmem

theorem rename_inv (dict : List (String × String))
    (hshape : ∀ kv ∈ dict, matches_wem_wav (kv.2 ++ ".wav") = false) :
    ∀ (sounds fs : List String), fs.Nodup →
      (∀ f ∈ fs, matches_wem_wav f = true → dictFind dict (soundStem f) ≠ none →
        f ∈ sounds) →
      (sounds.foldl (renameStep dict) fs).Nodup ∧
      (∀ f ∈ sounds.foldl (renameStep dict) fs, matches_wem_wav f = true →
        dictFind dict (soundStem f) = none)
  | [], fs, hnd, hinv => by
      refine ⟨hnd, fun f hf hm => ?_⟩
      by_contra hne
      exact absurd (hinv f hf hm hne) (List.not_mem_nil f)
  | s :: rest, fs, hnd, hinv => by
      cases hd : dictFind dict (soundStem s) with
      | none =>
          have hstep : renameStep dict fs s = fs := by
            unfold renameStep
            rw [hd]
          rw [List.foldl_cons, hstep]
          refine rename_inv dict hshape rest fs hnd ?_
          intro f hf hm hne
          rcases List.mem_cons.mp (hinv f hf hm hne) with rfl | h
          · exact absurd hd hne
          · exact h
      | some disp =>
          have hstep : renameStep dict fs s = renameFile fs s (disp ++ ".wav") := by
            unfold renameStep
            rw [hd]
          have hnew : matches_wem_wav (disp ++ ".wav") = false :=
            hshape (soundStem s, disp) (dictFind_mem hd)
          have hnd' : (renameFile fs s (disp ++ ".wav")).Nodup := by
            unfold renameFile
            by_cases hmem : (disp ++ ".wav") ∈ fs.erase s
            · rw [if_pos hmem]
              exact hnd.erase s
            · rw [if_neg hmem, List.nodup_append]
              refine ⟨hnd.erase s, List.nodup_singleton _, ?_⟩
              intro a ha hb
              rw [List.mem_singleton] at hb
              exact hmem (hb ▸ ha)
          rw [List.foldl_cons, hstep]
          refine rename_inv dict hshape rest _ hnd' ?_
          intro f hf hm hne
          have hf' : f ∈ fs.erase s := by
            unfold renameFile at hf
            by_cases hmem : (disp ++ ".wav") ∈ fs.erase s
            · rw [if_pos hmem] at hf
              exact hf
            · rw [if_neg hmem] at hf
              rcases List.mem_append.mp hf with h | h
              · exact h
              · rw [List.mem_singleton] at h
                rw [h, hnew] at hm
                exact absurd hm (by simp)
          have hf_ne_s : f ≠ s := ((hnd.mem_erase_iff).mp hf').1
          have hfs : f ∈ fs := List.mem_of_mem_erase hf'
          rcases List.mem_cons.mp (hinv f hfs hm hne) with rfl | h
          · exact absurd rfl hf_ne_s
          · exact h

theorem renameInFolder_inv (dict : List (String × String))
    (hshape : ∀ kv ∈ dict, matches_wem_wav (kv.2 ++ ".wav") = false)
    (files : List String) (hnd : files.Nodup) :
    (renameInFolder dict files).Nodup ∧
    (∀ f ∈ renameInFolder dict files, matches_wem_wav f = true →
      dictFind dict (soundStem f) = none) := by
  unfold renameInFolder
  refine rename_inv dict hshape (files.filter matches_wem_wav) files hnd ?_
  intro f hf hm _
  exact List.mem_filter.mpr ⟨hf, hm⟩

theorem foldRename_noop (dict : List (String × String)) :
    ∀ (sounds fs : List String),
      (∀ s ∈ sounds, dictFind dict (soundStem s) = none) →
      sounds.foldl (renameStep dict) fs = fs
  | [], _, _ => rfl
  | s :: rest, fs, h => by
      have hstep : renameStep dict fs s = fs := by
        unfold renameStep
        rw [h s (List.mem_cons_self s rest)]
      rw [List.foldl_cons, hstep]
      exact foldRename_noop dict rest fs (fun s' hs' => h s' (List.mem_cons_of_mem _ hs'))

theorem renameInFolder_noop (dict : List (String × String)) (files : List String)
    (h : ∀ f ∈ files, matches_wem_wav f = true → dictFind dict (soundStem f) = none) :
    renameInFolder dict files = files := by
  unfold renameInFolder
  refine foldRename_noop dict _ files ?_
  intro s hs
  have := List.mem_filter.mp hs
  exact h s this.1 this.2

theorem renameFolderResult_idem (wiki : List (String × String)) (fo : RFolder)
    (hnd : fo.files.Nodup) :
    renameFolderResult wiki (renameFolderResult wiki fo) =
      renameFolderResult wiki fo := by
  cases hk : find_mapping_key wiki fo.name with
  | none =>
      have h1 : renameFolderResult wiki fo = fo := by
        unfold renameFolderResult
        rw [hk]
      rw [h1, h1]
  | some kc =>
      have hshape : ∀ kv ∈ buildIdMap kc.2, matches_wem_wav (kv.2 ++ ".wav") = false :=
        fun kv hkv => shape_not_glob (buildIdMap_shape kc.2 kv hkv)
      have h1 : renameFolderResult wiki fo =
          ⟨fo.name, renameInFolder (buildIdMap kc.2) fo.files⟩ := by
        unfold renameFolderResult
        rw [hk]
      have h2 : renameFolderResult wiki
          (⟨fo.name, renameInFolder (buildIdMap kc.2) fo.files⟩ : RFolder) =
          ⟨fo.name, renameInFolder (buildIdMap kc.2)
            (renameInFolder (buildIdMap kc.2) fo.files)⟩ := by
        unfold renameFolderResult
        rw [hk]
      rw [h1, h2]
      simp only [RFolder.mk.injEq, true_and]
      exact renameInFolder_noop _ _ ((renameInFolder_inv _ hshape fo.files hnd).2)

/-- Claim C3: on a grouped partition whose knowledge base maps no two IDs of
one bank to the same display name, running the rename engine twice gives the
same folders as running it once — files renamed on the first pass no longer
match the `*.wem.wav` glob, so the second pass changes nothing. -/
theorem claim_C3 (wiki : List (String × String)) (folders : List RFolder)
    (hnd : ∀ fo ∈ folders, fo.files.Nodup)
    (hinj : ∀ fo ∈ folders, folder_mapping_injective wiki fo = true) :
    (rename_files wiki (rename_files wiki folders).1).1 =
      (rename_files wiki folders).1 := by
  show List.map (renameFolderResult wiki)
      (List.map (renameFolderResult wiki) folders) =
    List.map (renameFolderResult wiki) folders
  rw [List.map_map]
  apply List.map_congr_left
  intro fo hfo
  exact renameFolderResult_idem wiki fo (hnd fo hfo)

/-- Witness for C3 at a concrete partition and page. -/
theorem claim_C3_witness :
    (rename_files [("KEY_BANKA", "1\nFootsteps\n100, 101\n")]
        (rename_files [("KEY_BANKA", "1\nFootsteps\n100, 101\n")]
          [⟨"BankA", ["100.wem.wav", "foo.wav"]⟩]).1).1 =
      (rename_files [("KEY_BANKA", "1\nFootsteps\n100, 101\n")]
        [⟨"BankA", ["100.wem.wav", "foo.wav"]⟩]).1 :=
  claim_C3 _ _ (by decide) (by decide)

/-! ## Claim C7: folders with no matching page -/

theorem notice_inj {a b : String}
    (h : ("No mappings found for " ++ a) = ("No mappings found for " ++ b)) :
    a = b := by
  have hd := congrArg String.data h
  rw [String.data_append, String.data_append] at hd
  exact String.ext (List.append_cancel_left hd)

theorem head?_append_str (a b : String) (h : a.data ≠ []) :
    (a ++ b).data.head? = a.data.head? := by
  rw [String.data_append]
  cases hd : a.data with
  | nil => exact absurd hd h
  | cons x xs => rfl

theorem append_data_ne_nil (a b : String) (h : a.data ≠ []) : (a ++ b).data ≠ [] := by
  rw [String.data_append]
  intro hc
  exact h (List.append_eq_nil.mp hc).1

theorem ne_of_head_ne {s t : String} {c d : Char} (hs : s.data.head? = some c)
    (ht : t.data.head? = some d) (hcd : c ≠ d) : s ≠ t := by
  intro he
  rw [he, ht] at hs
  exact hcd (Option.some.inj hs).symm

theorem progress_ne_notice (k total : Nat) (x : String) :
    (Nat.repr k ++ "/" ++ Nat.repr total ++ " folders processed for renaming") ≠
      ("No mappings found for " ++ x) := by
  obtain ⟨c, cs, hc⟩ := List.exists_cons_of_ne_nil (natRepr_ne_nil k)
  have hcd : c.isDigit = true :=
    natRepr_all_digit k c (hc ▸ List.mem_cons_self c cs)
  have hne1 : (Nat.repr k).data ≠ [] := natRepr_ne_nil k
  have hs : (Nat.repr k ++ "/" ++ Nat.repr total ++
      " folders processed for renaming").data.head? = some c := by
    rw [head?_append_str _ _ (append_data_ne_nil _ _ (append_data_ne_nil _ _ hne1)),
      head?_append_str _ _ (append_data_ne_nil _ _ hne1),
      head?_append_str _ _ hne1, hc]
    rfl
  have ht : ("No mappings found for " ++ x).data.head? = some 'N' := by
    rw [head?_append_str _ _ (by decide)]
    decide
  refine ne_of_head_ne hs ht ?_
  intro he
  rw [he] at hcd
  exact absurd hcd (by decide)

theorem renameLogs_count_zero (wiki : List (String × String)) (total : Nat)
    (name : String) :
    ∀ (folders : List RFolder) (k : Nat), (∀ fo ∈ folders, fo.name ≠ name) →
      (renameLogs wiki total folders k).count ("No mappings found for " ++ name) = 0
  | [], _, _ => rfl
  | fo :: rest, k, h => by
      unfold renameLogs
      cases hk : find_mapping_key wiki fo.name with
      | none =>
          rw [List.count_cons]
          have hne : (("No mappings found for " ++ fo.name) ==
              ("No mappings found for " ++ name)) = false :=
            beq_eq_false_iff_ne.mpr
              (fun hc => (h fo (List.mem_cons_self fo rest)) (notice_inj hc))
          rw [hne, renameLogs_count_zero wiki total name rest k
            (fun fo' hfo' => h fo' (List.mem_cons_of_mem _ hfo'))]
          simp
      | some kc =>
          rw [List.count_cons]
          have hne : ((Nat.repr (k + 1) ++ "/" ++ Nat.repr total ++
              " folders processed for renaming") ==
              ("No mappings found for " ++ name)) = false :=
            beq_eq_false_iff_ne.mpr (progress_ne_notice (k + 1) total name)
          rw [hne, renameLogs_count_zero wiki total name rest (k + 1)
            (fun fo' hfo' => h fo' (List.mem_cons_of_mem _ hfo'))]
          simp

theorem renameLogs_count_one (wiki : List (String × String)) (total : Nat)
    (fo0 : RFolder) (hnone : find_mapping_key wiki fo0.name = none) :
    ∀ (folders : List RFolder) (k : Nat), fo0 ∈ folders →
      (folders.map RFolder.name).Nodup →
      (renameLogs wiki total folders k).count
        ("No mappings found for " ++ fo0.name) = 1
  | [], _, hmem, _ => absurd hmem (List.not_mem_nil fo0)
  | fo :: rest, k, hmem, hnd => by
      have hnd' : (fo.name :: rest.map RFolder.name).Nodup := by simpa using hnd
      have hnd1 : fo.name ∉ rest.map RFolder.name := (List.nodup_cons.mp hnd').1
      have hnd2 : (rest.map RFolder.name).Nodup := (List.nodup_cons.mp hnd').2
      rcases List.mem_cons.mp hmem with rfl | hmem'
      · unfold renameLogs
        rw [hnone, List.count_cons]
        have hself : (("No mappings found for " ++ fo0.name) ==
            ("No mappings found for " ++ fo0.name)) = true := by simp
        have hzero : (renameLogs wiki total rest k).count
            ("No mappings found for " ++ fo0.name) = 0 := by
          refine renameLogs_count_zero wiki total fo0.name rest k ?_
          intro fo' hfo' hc
          exact hnd1 (hc ▸ List.mem_map_of_mem RFolder.name hfo')
        rw [hself, hzero]
        simp
      · have hne_name : fo.name ≠ fo0.name := fun hc =>
          hnd1 (hc ▸ List.mem_map_of_mem RFolder.name hmem')
        unfold renameLogs
        cases hk : find_mapping_key wiki fo.name with
        | none =>
            rw [List.count_cons]
            have hne : (("No mappings found for " ++ fo.name) ==
                ("No mappings found for " ++ fo0.name)) = false :=
              beq_eq_false_iff_ne.mpr (fun hc => hne_name (notice_inj hc))
            rw [hne, renameLogs_count_one wiki total fo0 hnone rest k hmem' hnd2]
            simp
        | some kc =>
            rw [List.count_cons]
            have hne : ((Nat.repr (k + 1) ++ "/" ++ Nat.repr total ++
                " folders processed for renaming") ==
                ("No mappings found for " ++ fo0.name)) = false :=
              beq_eq_false_iff_ne.mpr (progress_ne_notice (k + 1) total fo0.name)
            rw [hne, renameLogs_count_one wiki total fo0 hnone rest (k + 1) hmem' hnd2]
            simp

/-- Claim C7: a bank folder whose name is a case-insensitive substring of no
page key is left untouched, exactly one `No mappings found` notice is
emitted for it, and every other folder is still processed (the output is
the per-folder map over all folders). -/
theorem claim_C7 (wiki : List (String × String)) (folders : List RFolder)
    (fo : RFolder) (hmem : fo ∈ folders)
    (hnone : find_mapping_key wiki fo.name = none)
    (hnd : (folders.map RFolder.name).Nodup) :
    renameFolderResult wiki fo = fo ∧
    (rename_files wiki folders).1 = folders.map (renameFolderResult wiki) ∧
    (rename_files wiki folders).2.count ("No mappings found for " ++ fo.name) = 1 := by
  refine ⟨?_, rfl, ?_⟩
  · unfold renameFolderResult
    rw [hnone]
  · exact renameLogs_count_one wiki folders.length fo hnone folders 0 hmem hnd

/-- Witness for C7: a folder matched by no page key. -/
theorem claim_C7_witness :
    renameFolderResult [("OTHER", "zzz")] ⟨"BankZ", ["a.wem.wav"]⟩ =
        ⟨"BankZ", ["a.wem.wav"]⟩ ∧
    (rename_files [("OTHER", "zzz")] [⟨"BankZ", ["a.wem.wav"]⟩]).1 =
      [⟨"BankZ", ["a.wem.wav"]⟩].map (renameFolderResult [("OTHER", "zzz")]) ∧
    (rename_files [("OTHER", "zzz")] [⟨"BankZ", ["a.wem.wav"]⟩]).2.count
      ("No mappings found for " ++ "BankZ") = 1 :=
  claim_C7 [("OTHER", "zzz")] [⟨"BankZ", ["a.wem.wav"]⟩] ⟨"BankZ", ["a.wem.wav"]⟩
    (by decide) (by decide) (by decide)

/-- Witness for C5 at a concrete wwiser descriptor line. -/
theorem claim_C5_witness :
    isMarkerLine "<fld type=\"sid\" name=\"sourceID\" value=\"12345\"/>" = true ∧
    ∃ i, lineId "<fld type=\"sid\" name=\"sourceID\" value=\"12345\"/>" = some i ∧
      (pySplit '\"' "<fld type=\"sid\" name=\"sourceID\" value=\"12345\"/>")[
        (pySplit '\"' "<fld type=\"sid\" name=\"sourceID\" value=\"12345\"/>").length - 2]? =
          some i ∧
      lineFilename "<fld type=\"sid\" name=\"sourceID\" value=\"12345\"/>" =
        some (i ++ ".wem.wav") :=
  ⟨by decide, claim_C5 "<fld type=\"sid\" name=\"sourceID\" value=\"12345\"/>" (by decide)⟩
